import Mathlib

/-!
Shallow embedding of the core logic of a 3D-print cost estimator web app
(`app.py`): the SuperSlicer G-code print-time extractor
(`extract_superslicer_time_from_gcode`), the demo/heuristic estimator
(`calculate_demo_estimate`), and the duration-to-cost conversion used by the
upload route.  Strings are modelled as `List Char`, Python `float`
arithmetic as `ℚ`, and the eight `re` patterns of the extractor as a small
backtracking matcher over a token language that covers exactly the
constructs those patterns use (literals, `\s*`, `\s+`, `(\d+)`, `.*?`).
-/

/-! ## Characters and Python string helpers -/

/-- Python `str.lower` restricted to ASCII (all pattern characters are ASCII). -/
def charLower (c : Char) : Char :=
  if 'A' ≤ c ∧ c ≤ 'Z' then Char.ofNat (c.toNat + 32) else c

/-- Lowercase a whole line, as `line.lower()` does. -/
def strLowerCh (cs : List Char) : List Char := cs.map charLower

/-- Python `str.strip()`: drop whitespace from both ends. -/
def pyStrip (cs : List Char) : List Char :=
  ((cs.dropWhile Char.isWhitespace).reverse.dropWhile Char.isWhitespace).reverse

/-- Split file content into lines the way iterating a Python text file does:
no trailing empty line, the newline characters themselves dropped (they are
whitespace, so `strip` removes them anyway). -/
def splitLinesCh : List Char → List (List Char)
  | [] => []
  | c :: cs =>
    if c = '\n' then [] :: splitLinesCh cs
    else
      match splitLinesCh cs with
      | [] => [[c]]
      | l :: ls => (c :: l) :: ls

/-- Python `line.startswith(";")`. -/
def startsWithSemi : List Char → Bool
  | [] => false
  | c :: _ => c == ';'

/-- Decimal digit string of a natural number, with an explicit fuel argument
(the fuel always dominates the number of digits). -/
def pyFmtNatAux : Nat → Nat → List Char
  | 0, _ => []
  | fuel + 1, n =>
    if n < 10 then [Char.ofNat (48 + n)]
    else pyFmtNatAux fuel (n / 10) ++ [Char.ofNat (48 + n % 10)]

/-- Decimal rendering of a natural number, as Python `f"{n}"` produces. -/
def pyFmtNat (n : Nat) : List Char := pyFmtNatAux (n + 1) n

/-- Python `int(...)` on a string of decimal digits. -/
def digitsToNat (cs : List Char) : Nat :=
  cs.foldl (fun a c => a * 10 + (c.toNat - 48)) 0

/-! ## The regex token language and backtracking matcher -/

/-- Tokens of the restricted regex language used by the G-code time patterns. -/
inductive RTok : Type
  | lit (s : List Char)
  | ws0
  | ws1
  | digits
  | lazyAny
deriving Repr, DecidableEq

/-- Try `f` on each candidate in `ks` in order, returning the first success;
this realizes the backtracking order of the regex engine. -/
def tryKs (f : Nat → Option (List (List Char))) : List Nat → Option (List (List Char))
  | [] => none
  | k :: ks =>
    match f k with
    | some r => some r
    | none => tryKs f ks

/-- Candidate repetition counts `[m, m-1, ..., 0]` for a greedy `\s*`. -/
def descList : Nat → List Nat
  | 0 => [0]
  | m + 1 => (m + 1) :: descList m

/-- Candidate repetition counts `[m, m-1, ..., 1]` for greedy `\s+` / `(\d+)`. -/
def descList1 : Nat → List Nat
  | 0 => []
  | m + 1 => (m + 1) :: descList1 m

/-- Backtracking matcher: does the token list match a prefix of `cs`
(trailing characters ignored), and with which captured `(\d+)` groups.
Greedy pieces try the longest repetition first, the lazy `.*?` the shortest,
exactly as Python's `re` backtracks. -/
def matchT : List RTok → List Char → Option (List (List Char))
  | [], _ => some []
  | .lit s :: ts, cs =>
    if s.isPrefixOf cs then matchT ts (cs.drop s.length) else none
  | .ws0 :: ts, cs =>
    tryKs (fun k => matchT ts (cs.drop k))
      (descList (cs.takeWhile Char.isWhitespace).length)
  | .ws1 :: ts, cs =>
    tryKs (fun k => matchT ts (cs.drop k))
      (descList1 (cs.takeWhile Char.isWhitespace).length)
  | .digits :: ts, cs =>
    tryKs (fun k => (matchT ts (cs.drop k)).map (fun caps => cs.take k :: caps))
      (descList1 (cs.takeWhile Char.isDigit).length)
  | .lazyAny :: ts, cs =>
    tryKs (fun k => if (cs.take k).all (· ≠ '\n') then matchT ts (cs.drop k) else none)
      (List.range (cs.length + 1))

/-- Python `re.search`: try every start position from the left, first match wins. -/
def reSearch (ts : List RTok) (cs : List Char) : Option (List (List Char)) :=
  tryKs (fun i => matchT ts (cs.drop i)) (List.range (cs.length + 1))

/-! ## The eight SuperSlicer time patterns of `extract_superslicer_time_from_gcode` -/

/-- Pattern 0: `;\s*estimated\s+printing\s+time.*?=\s*(\d+)h\s*(\d+)m\s*(\d+)s`. -/
def pat0 : List RTok :=
  [.lit [';'], .ws0, .lit "estimated".toList, .ws1, .lit "printing".toList, .ws1,
   .lit "time".toList, .lazyAny, .lit ['='], .ws0, .digits, .lit ['h'], .ws0,
   .digits, .lit ['m'], .ws0, .digits, .lit ['s']]

/-- Pattern 1: `;\s*estimated\s+printing\s+time.*?:\s*(\d+)h\s*(\d+)m\s*(\d+)s`. -/
def pat1 : List RTok :=
  [.lit [';'], .ws0, .lit "estimated".toList, .ws1, .lit "printing".toList, .ws1,
   .lit "time".toList, .lazyAny, .lit [':'], .ws0, .digits, .lit ['h'], .ws0,
   .digits, .lit ['m'], .ws0, .digits, .lit ['s']]

/-- Pattern 2: `;\s*print\s+time.*?:\s*(\d+)h\s*(\d+)m\s*(\d+)s`. -/
def pat2 : List RTok :=
  [.lit [';'], .ws0, .lit "print".toList, .ws1, .lit "time".toList, .lazyAny,
   .lit [':'], .ws0, .digits, .lit ['h'], .ws0, .digits, .lit ['m'], .ws0,
   .digits, .lit ['s']]

/-- Pattern 3: `;\s*total\s+print\s+time.*?:\s*(\d+)h\s*(\d+)m\s*(\d+)s`. -/
def pat3 : List RTok :=
  [.lit [';'], .ws0, .lit "total".toList, .ws1, .lit "print".toList, .ws1,
   .lit "time".toList, .lazyAny, .lit [':'], .ws0, .digits, .lit ['h'], .ws0,
   .digits, .lit ['m'], .ws0, .digits, .lit ['s']]

/-- Pattern 4: `;\s*estimated\s+printing\s+time.*?:\s*(\d+)m\s*(\d+)s`. -/
def pat4 : List RTok :=
  [.lit [';'], .ws0, .lit "estimated".toList, .ws1, .lit "printing".toList, .ws1,
   .lit "time".toList, .lazyAny, .lit [':'], .ws0, .digits, .lit ['m'], .ws0,
   .digits, .lit ['s']]

/-- Pattern 5: `;\s*print\s+time.*?:\s*(\d+)m\s*(\d+)s`. -/
def pat5 : List RTok :=
  [.lit [';'], .ws0, .lit "print".toList, .ws1, .lit "time".toList, .lazyAny,
   .lit [':'], .ws0, .digits, .lit ['m'], .ws0, .digits, .lit ['s']]

/-- Pattern 6: `;\s*TIME:\s*(\d+)` (the scan runs on the lowercased line, so
the literal is lowercase here). -/
def pat6 : List RTok :=
  [.lit [';'], .ws0, .lit "time:".toList, .ws0, .digits]

/-- Pattern 7: `;\s*printing\s+time.*?(\d+):(\d+):(\d+)`. -/
def pat7 : List RTok :=
  [.lit [';'], .ws0, .lit "printing".toList, .ws1, .lit "time".toList, .lazyAny,
   .digits, .lit [':'], .digits, .lit [':'], .digits]

/-- The `time_patterns` list, in source order. -/
def time_patterns : List (List RTok) :=
  [pat0, pat1, pat2, pat3, pat4, pat5, pat6, pat7]

/-! ## The extractor -/

/-- Turn the captured groups of a match into seconds, following the
`len(groups)` dispatch of the source (1 group: raw seconds; 2 groups:
minutes/seconds; 3 groups: hours/minutes/seconds; anything else: keep
scanning). -/
def secondsOfGroups : List (List Char) → Option Nat
  | [g] => some (digitsToNat g)
  | [g1, g2] => some (digitsToNat g1 * 60 + digitsToNat g2)
  | [g1, g2, g3] =>
    some (digitsToNat g1 * 3600 + digitsToNat g2 * 60 + digitsToNat g3)
  | _ => none

/-- The display string the extractor builds: `f"{hours}h {mins}m {secs}s"`,
or `f"{mins}m {secs}s"` when the hour component is zero. -/
def formatTimeCh (seconds : Nat) : List Char :=
  let hours := seconds / 3600
  let mins := seconds % 3600 / 60
  let secs := seconds % 60
  if 0 < hours then
    pyFmtNat hours ++ 'h' :: ' ' :: (pyFmtNat mins ++ 'm' :: ' ' :: (pyFmtNat secs ++ ['s']))
  else
    pyFmtNat mins ++ 'm' :: ' ' :: (pyFmtNat secs ++ ['s'])

/-- Scan a single (already stripped) line: non-comment lines are skipped,
comment lines are lowercased and tried against the eight patterns in order. -/
def scanLine (line : List Char) : Option (List Char × Nat) :=
  if startsWithSemi line then
    (time_patterns.findSome? fun p =>
        (reSearch p (strLowerCh line)).bind secondsOfGroups).map
      (fun seconds => (formatTimeCh seconds, seconds))
  else none

/-- Scan the header lines in order, returning the first hit. -/
def scanLines (lines : List (List Char)) : Option (List Char × Nat) :=
  lines.findSome? scanLine

/-- The file-reading loop of the extractor: strip each line, stop as soon as
the line index exceeds 300 (so exactly the first 301 lines are kept). -/
def readLoop : Nat → List (List Char) → List (List Char)
  | _, [] => []
  | i, l :: ls => if 300 < i then [] else pyStrip l :: readLoop (i + 1) ls

/-- The extractor on pre-split raw lines: read the header, then scan it. -/
def extractLines (lines : List (List Char)) : Option (List Char × Nat) :=
  scanLines (readLoop 0 lines)

/-- `extract_superslicer_time_from_gcode`, modelled on the file CONTENT
(the `os.path.exists` / IO-error branches of the source both yield
`(None, None)` and are outside the pure core): split into lines, keep the
first 301 stripped lines, scan them with the eight time patterns, and
return the display string and the seconds of the first match. -/
def extract_superslicer_time_from_gcode (content : String) : Option (String × Nat) :=
  (extractLines (splitLinesCh content.toList)).map (fun r => (⟨r.1⟩, r.2))

/-! ## Rational arithmetic: cost conversion and the demo estimator -/

/-- Round to the nearest integer, ties to even, as Python `round` does. -/
def roundHalfEven (q : ℚ) : ℤ :=
  if q - ⌊q⌋ < 1 / 2 then ⌊q⌋
  else if 1 / 2 < q - ⌊q⌋ then ⌊q⌋ + 1
  else if ⌊q⌋ % 2 = 0 then ⌊q⌋ else ⌊q⌋ + 1

/-- Python `round(x, 2)`. -/
def pyRound2 (q : ℚ) : ℚ := (roundHalfEven (q * 100) : ℚ) / 100

/-- The configured hourly rate (`COST_PER_HOUR` defaults to 3.0). -/
def COST_PER_HOUR : ℚ := 3

/-- The cost computation of the upload route:
`hours = time_seconds / 3600; round(hours * rate, 2)`. -/
def duration_to_cost (time_seconds : Nat) (rate : ℚ) : ℚ :=
  pyRound2 ((time_seconds : ℚ) / 3600 * rate)

/-- The `size_factor` of `calculate_demo_estimate`: clamp of
`file_size_kb / 100` to `[0.5, 3.0]`, or `1.0` when the file size cannot be
read (`except` branch); `none` models the unreadable-file case. -/
def size_factor (file_size_kb : Option ℚ) : ℚ :=
  match file_size_kb with
  | some kb => max 0.5 (min 3.0 (kb / 100))
  | none => 1

/-- `base_hours = 1.5 * size_factor`. -/
def base_hours (file_size_kb : Option ℚ) : ℚ := 1.5 * size_factor file_size_kb

/-- `infill_factor = 1 + (infill / 100 * 0.8)`. -/
def infill_factor (infill : ℚ) : ℚ := 1 + infill / 100 * 0.8

/-- `wall_factor = 1 + ((wall_thickness - 0.4) / 0.4 * 0.3)`; note the source
applies no clamping to this factor. -/
def wall_factor (wall_thickness : ℚ) : ℚ :=
  1 + (wall_thickness - 0.4) / 0.4 * 0.3

/-- `total_hours = base_hours * infill_factor * wall_factor`. -/
def total_hours (file_size_kb : Option ℚ) (infill wall_thickness : ℚ) : ℚ :=
  base_hours file_size_kb * infill_factor infill * wall_factor wall_thickness

/-- Python `int(...)` on a float: truncation toward zero. -/
def pyInt (q : ℚ) : ℤ := if 0 ≤ q then ⌊q⌋ else ⌈q⌉

/-- Decimal rendering of an integer, as Python `f"{i}"` produces. -/
def pyFmtInt (i : ℤ) : List Char :=
  if i < 0 then '-' :: pyFmtNat i.natAbs else pyFmtNat i.natAbs

/-- `calculate_demo_estimate`: the heuristic fallback estimator.  The first
argument is the measured file size in KB (`none` when unreadable), and the
result is the display time string and the rounded cost. -/
def calculate_demo_estimate (file_size_kb : Option ℚ) (infill wall_thickness : ℚ) :
    String × ℚ :=
  let th := total_hours file_size_kb infill wall_thickness
  let hours := pyInt th
  let minutes := pyInt ((th - hours) * 60)
  let seconds := pyInt (((th - hours) * 60 - minutes) * 60)
  let time_str : List Char :=
    if 0 < hours then
      pyFmtInt hours ++ 'h' :: ' ' :: (pyFmtInt minutes ++ 'm' :: ' ' :: (pyFmtInt seconds ++ ['s']))
    else
      pyFmtInt minutes ++ 'm' :: ' ' :: (pyFmtInt seconds ++ ['s'])
  (⟨time_str⟩, pyRound2 (th * COST_PER_HOUR))

/-! ## Auxiliary predicates used in the statements of lemmas -/

/-- A character some literal token of the pattern insists on. -/
def needsLit (c : Char) (ts : List RTok) : Prop :=
  ∃ s, RTok.lit s ∈ ts ∧ c ∈ s

/-- The list is empty or its first character is not whitespace. -/
def headNotWs : List Char → Prop
  | [] => True
  | c :: _ => Char.isWhitespace c = false

/-! ## Character facts -/

theorem isDigit_val {c : Char} (h : c.isDigit = true) :
    48 ≤ c.val.toNat ∧ c.val.toNat ≤ 57 := by
  simp [Char.isDigit] at h
  exact ⟨h.1, h.2⟩

theorem isDigit_not_ws {c : Char} (h : c.isDigit = true) :
    c.isWhitespace = false := by
  simp only [Char.isWhitespace, Bool.or_eq_false_iff, decide_eq_false_iff_not]
  refine ⟨⟨⟨?_, ?_⟩, ?_⟩, ?_⟩ <;> rintro rfl <;> simp [Char.isDigit] at h

theorem ne_of_isDigit {c x : Char} (h : c.isDigit = true)
    (hx : x.isDigit = false) : c ≠ x := by
  rintro rfl
  rw [h] at hx
  cases hx

theorem charLower_of_isDigit {c : Char} (h : c.isDigit = true) :
    charLower c = c := by
  unfold charLower
  rw [if_neg]
  rintro ⟨h1, _⟩
  obtain ⟨_, hb⟩ := isDigit_val h
  rw [Char.le_def] at h1
  have ha' : (65 : Nat) ≤ c.val.toNat := h1
  omega

/-! ## Decimal rendering facts -/

theorem digit_char_isDigit {n : Nat} (h : n < 10) :
    (Char.ofNat (48 + n)).isDigit = true := by
  interval_cases n <;> decide

theorem digit_char_val {n : Nat} (h : n < 10) :
    (Char.ofNat (48 + n)).toNat - 48 = n := by
  interval_cases n <;> decide

theorem pyFmtNatAux_ne_nil : ∀ fuel n, fuel ≠ 0 → pyFmtNatAux fuel n ≠ [] := by
  intro fuel n h
  cases fuel with
  | zero => exact absurd rfl h
  | succ fuel =>
    unfold pyFmtNatAux
    split
    · simp
    · simp

theorem pyFmtNat_ne_nil (n : Nat) : pyFmtNat n ≠ [] :=
  pyFmtNatAux_ne_nil (n + 1) n (Nat.succ_ne_zero n)

theorem pyFmtNatAux_digits :
    ∀ fuel n c, c ∈ pyFmtNatAux fuel n → c.isDigit = true := by
  intro fuel
  induction fuel with
  | zero => intro n c h; cases h
  | succ fuel ih =>
    intro n c h
    unfold pyFmtNatAux at h
    split at h
    · rw [List.mem_singleton] at h
      subst h
      exact digit_char_isDigit (by omega)
    · rw [List.mem_append] at h
      rcases h with h | h
      · exact ih _ _ h
      · rw [List.mem_singleton] at h
        subst h
        exact digit_char_isDigit (Nat.mod_lt _ (by omega))

theorem pyFmtNat_digits {n : Nat} : ∀ c ∈ pyFmtNat n, c.isDigit = true :=
  fun c h => pyFmtNatAux_digits (n + 1) n c h

theorem digitsToNat_append_singleton (xs : List Char) (c : Char) :
    digitsToNat (xs ++ [c]) = digitsToNat xs * 10 + (c.toNat - 48) := by
  simp [digitsToNat, List.foldl_append]

theorem digitsToNat_pyFmtNatAux :
    ∀ fuel n, n < fuel → digitsToNat (pyFmtNatAux fuel n) = n := by
  intro fuel
  induction fuel with
  | zero => intro n h; omega
  | succ fuel ih =>
    intro n h
    unfold pyFmtNatAux
    split
    · rename_i h10
      show digitsToNat [Char.ofNat (48 + n)] = n
      have := digit_char_val h10
      simp [digitsToNat]
      exact this
    · rename_i h10
      rw [digitsToNat_append_singleton, ih (n / 10) (by omega)]
      have : (Char.ofNat (48 + n % 10)).toNat - 48 = n % 10 :=
        digit_char_val (Nat.mod_lt _ (by omega))
      rw [this]
      omega

theorem digitsToNat_pyFmtNat (n : Nat) : digitsToNat (pyFmtNat n) = n :=
  digitsToNat_pyFmtNatAux (n + 1) n (Nat.lt_succ_self n)

theorem strLower_of_digits {cs : List Char} (h : ∀ c ∈ cs, c.isDigit = true) :
    strLowerCh cs = cs := by
  unfold strLowerCh
  induction cs with
  | nil => rfl
  | cons c cs ih =>
    rw [List.map_cons, charLower_of_isDigit (h c (List.mem_cons_self c cs)),
      ih (fun x hx => h x (List.mem_cons_of_mem c hx))]

/-! ## Matcher combinator facts -/

theorem tryKs_cons_some {f : Nat → Option (List (List Char))} {k : Nat}
    {ks : List Nat} {r : List (List Char)} (h : f k = some r) :
    tryKs f (k :: ks) = some r := by
  unfold tryKs
  rw [h]

theorem tryKs_eq_none {f : Nat → Option (List (List Char))} :
    ∀ {ks : List Nat}, (∀ k ∈ ks, f k = none) → tryKs f ks = none := by
  intro ks
  induction ks with
  | nil => intro _; rfl
  | cons k ks ih =>
    intro h
    unfold tryKs
    rw [h k (List.mem_cons_self k ks)]
    exact ih (fun x hx => h x (List.mem_cons_of_mem k hx))

theorem exists_of_tryKs_some {f : Nat → Option (List (List Char))} :
    ∀ {ks : List Nat} {r : List (List Char)}, tryKs f ks = some r →
      ∃ k ∈ ks, f k = some r := by
  intro ks
  induction ks with
  | nil => intro r h; cases h
  | cons k ks ih =>
    intro r h
    unfold tryKs at h
    rcases hk : f k with _ | v
    · rw [hk] at h
      obtain ⟨j, hj, hfj⟩ := ih h
      exact ⟨j, List.mem_cons_of_mem k hj, hfj⟩
    · rw [hk] at h
      cases h
      exact ⟨k, List.mem_cons_self k ks, hk⟩

theorem descList_cons (n : Nat) : ∃ ks, descList n = n :: ks := by
  cases n with
  | zero => exact ⟨[], rfl⟩
  | succ m => exact ⟨descList m, rfl⟩

theorem descList1_cons (m : Nat) : descList1 (m + 1) = (m + 1) :: descList1 m :=
  rfl

theorem isPrefixOf_append_self :
    ∀ (s cs : List Char), s.isPrefixOf (s ++ cs) = true := by
  intro s cs
  induction s with
  | nil => simp [List.isPrefixOf]
  | cons c s ih =>
    show (c == c && s.isPrefixOf (s ++ cs)) = true
    rw [ih, beq_self_eq_true]
    rfl

theorem eq_append_of_isPrefixOf :
    ∀ {s cs : List Char}, s.isPrefixOf cs = true → ∃ t, cs = s ++ t := by
  intro s
  induction s with
  | nil => exact fun {cs} _ => ⟨cs, rfl⟩
  | cons c s ih =>
    intro cs h
    cases cs with
    | nil => cases h
    | cons d cs =>
      have h' : (c == d && s.isPrefixOf cs) = true := h
      rw [Bool.and_eq_true] at h'
      obtain ⟨t, ht⟩ := ih h'.2
      exact ⟨t, by rw [List.cons_append, ht, eq_of_beq h'.1]⟩

/-! ## Matcher success lemmas: each token consumes its intended segment -/

theorem matchT_lit_cons {s : List Char} {ts : List RTok} {cs : List Char}
    {caps : List (List Char)} (h : matchT ts cs = some caps) :
    matchT (.lit s :: ts) (s ++ cs) = some caps := by
  unfold matchT
  rw [if_pos (isPrefixOf_append_self s cs), List.drop_left]
  exact h

theorem takeWhile_append_of {p : Char → Bool} {w cs : List Char}
    (hw : ∀ c ∈ w, p c = true) (hcs : cs.takeWhile p = []) :
    (w ++ cs).takeWhile p = w := by
  induction w with
  | nil => exact hcs
  | cons c w ih =>
    rw [List.cons_append, List.takeWhile_cons_of_pos (hw c (List.mem_cons_self c w)),
      ih (fun x hx => hw x (List.mem_cons_of_mem c hx))]

theorem takeWhile_eq_nil_of_head {p : Char → Bool} :
    ∀ {cs : List Char}, (∀ c ∈ cs.take 1, p c = false) → cs.takeWhile p = [] := by
  intro cs h
  cases cs with
  | nil => rfl
  | cons c l =>
    exact List.takeWhile_cons_of_neg (by
      rw [h c (by simp)]
      exact Bool.false_ne_true)

theorem matchT_ws0_seg {w : List Char} {ts : List RTok} {cs : List Char}
    {caps : List (List Char)} (hw : ∀ c ∈ w, Char.isWhitespace c = true)
    (hcs : cs.takeWhile Char.isWhitespace = [])
    (h : matchT ts cs = some caps) :
    matchT (.ws0 :: ts) (w ++ cs) = some caps := by
  unfold matchT
  rw [takeWhile_append_of hw hcs]
  obtain ⟨ks, hks⟩ := descList_cons w.length
  rw [hks]
  exact tryKs_cons_some (by rw [List.drop_left]; exact h)

theorem matchT_ws1_seg {w : List Char} {ts : List RTok} {cs : List Char}
    {caps : List (List Char)} (hne : w ≠ [])
    (hw : ∀ c ∈ w, Char.isWhitespace c = true)
    (hcs : cs.takeWhile Char.isWhitespace = [])
    (h : matchT ts cs = some caps) :
    matchT (.ws1 :: ts) (w ++ cs) = some caps := by
  unfold matchT
  rw [takeWhile_append_of hw hcs]
  obtain ⟨m, hm⟩ : ∃ m, w.length = m + 1 := by
    cases w with
    | nil => exact absurd rfl hne
    | cons c w => exact ⟨w.length, rfl⟩
  rw [hm, descList1_cons]
  exact tryKs_cons_some (by rw [← hm, List.drop_left]; exact h)

theorem matchT_digits_seg {d : List Char} {ts : List RTok} {cs : List Char}
    {caps : List (List Char)} (hne : d ≠ [])
    (hd : ∀ c ∈ d, Char.isDigit c = true)
    (hcs : cs.takeWhile Char.isDigit = [])
    (h : matchT ts cs = some caps) :
    matchT (.digits :: ts) (d ++ cs) = some (d :: caps) := by
  unfold matchT
  rw [takeWhile_append_of hd hcs]
  obtain ⟨m, hm⟩ : ∃ m, d.length = m + 1 := by
    cases d with
    | nil => exact absurd rfl hne
    | cons c d => exact ⟨d.length, rfl⟩
  rw [hm, descList1_cons]
  refine tryKs_cons_some ?_
  rw [← hm, List.drop_left, h, List.take_left]
  rfl

theorem matchT_lazyAny_zero {ts : List RTok} {cs : List Char}
    {caps : List (List Char)} (h : matchT ts cs = some caps) :
    matchT (.lazyAny :: ts) cs = some caps := by
  unfold matchT
  rw [List.range_succ_eq_map]
  refine tryKs_cons_some ?_
  simpa using h

theorem matchT_nil_any (cs : List Char) : matchT [] cs = some [] := rfl

theorem reSearch_zero {p : List RTok} {cs : List Char} {caps : List (List Char)}
    (h : matchT p cs = some caps) : reSearch p cs = some caps := by
  unfold reSearch
  rw [List.range_succ_eq_map]
  exact tryKs_cons_some (by simpa using h)

/-! ## Matcher failure lemmas -/

theorem mem_of_matchT_some {c : Char} :
    ∀ {ts : List RTok} {cs : List Char} {caps : List (List Char)},
      matchT ts cs = some caps → needsLit c ts → c ∈ cs := by
  intro ts
  induction ts with
  | nil =>
    intro cs caps _ hn
    obtain ⟨s, hs, _⟩ := hn
    cases hs
  | cons t ts ih =>
    intro cs caps h hn
    obtain ⟨s, hs, hcs⟩ := hn
    rw [List.mem_cons] at hs
    cases t with
    | lit s' =>
      unfold matchT at h
      by_cases hp : s'.isPrefixOf cs = true
      · rw [if_pos hp] at h
        rcases hs with hs | hs
        · cases hs
          obtain ⟨t, ht⟩ := eq_append_of_isPrefixOf hp
          rw [ht]
          exact List.mem_append_left _ hcs
        · exact List.mem_of_mem_drop (ih h ⟨s, hs, hcs⟩)
      · rw [if_neg hp] at h
        cases h
    | ws0 =>
      rcases hs with hs | hs
      · cases hs
      unfold matchT at h
      obtain ⟨k, _, hk⟩ := exists_of_tryKs_some h
      exact List.mem_of_mem_drop (ih hk ⟨s, hs, hcs⟩)
    | ws1 =>
      rcases hs with hs | hs
      · cases hs
      unfold matchT at h
      obtain ⟨k, _, hk⟩ := exists_of_tryKs_some h
      exact List.mem_of_mem_drop (ih hk ⟨s, hs, hcs⟩)
    | digits =>
      rcases hs with hs | hs
      · cases hs
      unfold matchT at h
      obtain ⟨k, _, hk⟩ := exists_of_tryKs_some h
      rw [Option.map_eq_some'] at hk
      obtain ⟨caps', hk', _⟩ := hk
      exact List.mem_of_mem_drop (ih hk' ⟨s, hs, hcs⟩)
    | lazyAny =>
      rcases hs with hs | hs
      · cases hs
      unfold matchT at h
      obtain ⟨k, _, hk⟩ := exists_of_tryKs_some h
      split at hk
      · exact List.mem_of_mem_drop (ih hk ⟨s, hs, hcs⟩)
      · cases hk

theorem reSearch_eq_none_of_not_mem {c : Char} {p : List RTok} {cs : List Char}
    (hn : needsLit c p) (hc : c ∉ cs) : reSearch p cs = none := by
  unfold reSearch
  refine tryKs_eq_none (fun k _ => ?_)
  rcases h : matchT p (cs.drop k) with _ | caps
  · rfl
  · exact absurd (List.mem_of_mem_drop (mem_of_matchT_some h hn)) hc

theorem matchT_semi_none {ts : List RTok} {cs : List Char} (hc : ';' ∉ cs) :
    matchT (.lit [';'] :: ts) cs = none := by
  unfold matchT
  rw [if_neg]
  intro hp
  obtain ⟨t, ht⟩ := eq_append_of_isPrefixOf hp
  rw [ht] at hc
  exact hc (List.mem_append_left _ (List.mem_singleton_self _))

theorem reSearch_semi {ts : List RTok} {rest : List Char} (hc : ';' ∉ rest) :
    reSearch (.lit [';'] :: ts) (';' :: rest) =
      matchT (.lit [';'] :: ts) (';' :: rest) := by
  rcases h0 : matchT (.lit [';'] :: ts) (';' :: rest) with _ | caps
  · unfold reSearch
    refine tryKs_eq_none (fun k _ => ?_)
    cases k with
    | zero => exact h0
    | succ j =>
      refine matchT_semi_none (fun hmem => ?_)
      exact hc (List.mem_of_mem_drop (by simpa using hmem))
  · exact reSearch_zero h0

/-! ## Pipeline facts: scanning, header reading, line splitting, stripping -/

theorem scanLines_cons_none {l : List Char} {ls : List (List Char)}
    (h : scanLine l = none) : scanLines (l :: ls) = scanLines ls := by
  unfold scanLines
  rw [List.findSome?_cons, h]

theorem scanLines_cons_some {l : List Char} {ls : List (List Char)}
    {r : List Char × Nat} (h : scanLine l = some r) :
    scanLines (l :: ls) = some r := by
  unfold scanLines
  rw [List.findSome?_cons, h]

theorem scanLines_eq_none {ls : List (List Char)}
    (h : ∀ l ∈ ls, scanLine l = none) : scanLines ls = none := by
  induction ls with
  | nil => rfl
  | cons l ls ih =>
    rw [scanLines_cons_none (h l (List.mem_cons_self l ls))]
    exact ih (fun x hx => h x (List.mem_cons_of_mem l hx))

theorem scanLine_of_not_semi {l : List Char} (h : startsWithSemi l = false) :
    scanLine l = none := by
  unfold scanLine
  rw [h]
  rfl

theorem readLoop_eq : ∀ (ls : List (List Char)) (i : Nat),
    readLoop i ls = (ls.take (301 - i)).map pyStrip := by
  intro ls
  induction ls with
  | nil => intro i; simp [readLoop]
  | cons l ls ih =>
    intro i
    unfold readLoop
    by_cases hi : 300 < i
    · rw [if_pos hi]
      have : 301 - i = 0 := by omega
      rw [this]
      rfl
    · rw [if_neg hi]
      have : 301 - i = (301 - (i + 1)) + 1 := by omega
      rw [this, List.take_succ_cons, List.map_cons, ih (i + 1)]

theorem splitLinesCh_single :
    ∀ {cs : List Char}, cs ≠ [] → '\n' ∉ cs → splitLinesCh cs = [cs] := by
  intro cs
  induction cs with
  | nil => intro h _; exact absurd rfl h
  | cons c cs ih =>
    intro _ hn
    unfold splitLinesCh
    rw [if_neg (fun hc => hn (by rw [hc]; exact List.mem_cons_self _ _))]
    cases cs with
    | nil => rfl
    | cons d cs' =>
      rw [ih (by simp) (fun hm => hn (List.mem_cons_of_mem c hm))]

theorem dropWhile_append_singleton {p : Char → Bool} {a : Char}
    (h : p a = false) :
    ∀ (xs : List Char), (xs ++ [a]).dropWhile p = xs.dropWhile p ++ [a] := by
  intro xs
  induction xs with
  | nil =>
    simp only [List.nil_append]
    rw [List.dropWhile_cons_of_neg (by rw [h]; exact Bool.false_ne_true)]
    rfl
  | cons x xs ih =>
    by_cases hx : p x = true
    · rw [List.cons_append, List.dropWhile_cons_of_pos hx,
        List.dropWhile_cons_of_pos hx, ih]
    · have hx' : ¬ p x = true := hx
      rw [List.cons_append, List.dropWhile_cons_of_neg hx',
        List.dropWhile_cons_of_neg hx', List.cons_append]

theorem pyStrip_eq_self {cs : List Char} (h1 : headNotWs cs)
    (h2 : headNotWs cs.reverse) : pyStrip cs = cs := by
  have step1 : cs.dropWhile Char.isWhitespace = cs := by
    cases cs with
    | nil => rfl
    | cons c l =>
      exact List.dropWhile_cons_of_neg (by rw [h1]; exact Bool.false_ne_true)
  have step2 : cs.reverse.dropWhile Char.isWhitespace = cs.reverse := by
    cases hr : cs.reverse with
    | nil => rfl
    | cons c l =>
      rw [hr] at h2
      exact List.dropWhile_cons_of_neg (by rw [h2]; exact Bool.false_ne_true)
  unfold pyStrip
  rw [step1, step2, List.reverse_reverse]

theorem pyStrip_cons_of_head {c : Char} {r : List Char}
    (hws : Char.isWhitespace c = false) :
    pyStrip (c :: r) = c :: (r.reverse.dropWhile Char.isWhitespace).reverse := by
  unfold pyStrip
  rw [List.dropWhile_cons_of_neg (by rw [hws]; exact Bool.false_ne_true)]
  rw [List.reverse_cons, dropWhile_append_singleton hws, List.reverse_append]
  rfl

theorem startsWithSemi_pyStrip_digit {c : Char} {r : List Char}
    (hd : Char.isDigit c = true) :
    startsWithSemi (pyStrip (c :: r)) = false := by
  rw [pyStrip_cons_of_head (isDigit_not_ws hd)]
  show (c == ';') = false
  rw [beq_eq_false_iff_ne]
  exact ne_of_isDigit hd (by decide)

/-! ## Round-trip machinery: matching the extractor's own display string -/

theorem takeWhile_ws_eq_nil_of_digits {d : List Char} (hne : d ≠ [])
    (hd : ∀ c ∈ d, c.isDigit = true) (rest : List Char) :
    (d ++ rest).takeWhile Char.isWhitespace = [] := by
  cases d with
  | nil => exact absurd rfl hne
  | cons c l =>
    exact List.takeWhile_cons_of_neg
      (by rw [isDigit_not_ws (hd c (List.mem_cons_self c l))]; exact Bool.false_ne_true)

theorem mem_formatTimeCh {c : Char} {s : Nat} (h : c ∈ formatTimeCh s) :
    c.isDigit = true ∨ c = 'h' ∨ c = 'm' ∨ c = 's' ∨ c = ' ' := by
  simp only [formatTimeCh] at h
  split at h
  · simp only [List.mem_append, List.mem_cons, List.mem_singleton,
      List.not_mem_nil, or_false] at h
    rcases h with h | h | h | h | h | h | h | h <;>
      first
        | exact Or.inl (pyFmtNat_digits _ h)
        | (subst h; simp)
  · simp only [List.mem_append, List.mem_cons, List.mem_singleton,
      List.not_mem_nil, or_false] at h
    rcases h with h | h | h | h | h <;>
      first
        | exact Or.inl (pyFmtNat_digits _ h)
        | (subst h; simp)

theorem strLower_eq_self {cs : List Char} (h : ∀ c ∈ cs, charLower c = c) :
    strLowerCh cs = cs := by
  unfold strLowerCh
  induction cs with
  | nil => rfl
  | cons c l ih =>
    rw [List.map_cons, h c (List.mem_cons_self c l),
      ih (fun x hx => h x (List.mem_cons_of_mem c hx))]

theorem strLower_line (s : Nat) :
    strLowerCh ("; estimated printing time: ".toList ++ formatTimeCh s) =
      "; estimated printing time: ".toList ++ formatTimeCh s := by
  refine strLower_eq_self (fun c hc => ?_)
  rcases List.mem_append.mp hc with h | h
  · have hall : ∀ x ∈ "; estimated printing time: ".toList, charLower x = x := by decide
    exact hall c h
  · rcases mem_formatTimeCh h with h' | h' | h' | h' | h'
    · exact charLower_of_isDigit h'
    all_goals (subst h'; decide)

theorem matchT_est_label {ts : List RTok} {cs : List Char} {caps : List (List Char)}
    (hcs : cs.takeWhile Char.isWhitespace = [])
    (h : matchT ts cs = some caps) :
    matchT (.lit [';'] :: .ws0 :: .lit "estimated".toList :: .ws1 ::
        .lit "printing".toList :: .ws1 :: .lit "time".toList :: .lazyAny ::
        .lit [':'] :: .ws0 :: ts)
      ("; estimated printing time: ".toList ++ cs) = some caps := by
  have t9 : matchT (.ws0 :: ts) ([' '] ++ cs) = some caps :=
    matchT_ws0_seg (by decide) hcs h
  have t8 : matchT (.lit [':'] :: .ws0 :: ts) ([':'] ++ ([' '] ++ cs)) = some caps :=
    matchT_lit_cons t9
  have t7 : matchT (.lazyAny :: .lit [':'] :: .ws0 :: ts)
      ([':'] ++ ([' '] ++ cs)) = some caps :=
    matchT_lazyAny_zero t8
  have t6 : matchT (.lit "time".toList :: .lazyAny :: .lit [':'] :: .ws0 :: ts)
      ("time".toList ++ ([':'] ++ ([' '] ++ cs))) = some caps :=
    matchT_lit_cons t7
  have t5 : matchT (.ws1 :: .lit "time".toList :: .lazyAny :: .lit [':'] :: .ws0 :: ts)
      ([' '] ++ ("time".toList ++ ([':'] ++ ([' '] ++ cs)))) = some caps :=
    matchT_ws1_seg (by decide) (by decide)
      (List.takeWhile_cons_of_neg (by decide)) t6
  have t4 : matchT (.lit "printing".toList :: .ws1 :: .lit "time".toList :: .lazyAny ::
        .lit [':'] :: .ws0 :: ts)
      ("printing".toList ++ ([' '] ++ ("time".toList ++ ([':'] ++ ([' '] ++ cs))))) = some caps :=
    matchT_lit_cons t5
  have t3 : matchT (.ws1 :: .lit "printing".toList :: .ws1 :: .lit "time".toList :: .lazyAny ::
        .lit [':'] :: .ws0 :: ts)
      ([' '] ++ ("printing".toList ++ ([' '] ++ ("time".toList ++ ([':'] ++ ([' '] ++ cs)))))) = some caps :=
    matchT_ws1_seg (by decide) (by decide)
      (List.takeWhile_cons_of_neg (by decide)) t4
  have t2 : matchT (.lit "estimated".toList :: .ws1 :: .lit "printing".toList :: .ws1 ::
        .lit "time".toList :: .lazyAny :: .lit [':'] :: .ws0 :: ts)
      ("estimated".toList ++ ([' '] ++ ("printing".toList ++ ([' '] ++ ("time".toList ++
        ([':'] ++ ([' '] ++ cs))))))) = some caps :=
    matchT_lit_cons t3
  have t1 : matchT (.ws0 :: .lit "estimated".toList :: .ws1 :: .lit "printing".toList :: .ws1 ::
        .lit "time".toList :: .lazyAny :: .lit [':'] :: .ws0 :: ts)
      ([' '] ++ ("estimated".toList ++ ([' '] ++ ("printing".toList ++ ([' '] ++
        ("time".toList ++ ([':'] ++ ([' '] ++ cs)))))))) = some caps :=
    matchT_ws0_seg (by decide) (List.takeWhile_cons_of_neg (by decide)) t2
  exact matchT_lit_cons t1

theorem matchT_ms_tail {M S : List Char}
    (hMne : M ≠ []) (hM : ∀ c ∈ M, c.isDigit = true)
    (hSne : S ≠ []) (hS : ∀ c ∈ S, c.isDigit = true) :
    matchT [.digits, .lit ['m'], .ws0, .digits, .lit ['s']]
      (M ++ 'm' :: ' ' :: (S ++ ['s'])) = some [M, S] := by
  have u1 : matchT [RTok.lit ['s']] (['s'] ++ []) = some [] :=
    matchT_lit_cons (matchT_nil_any [])
  have u2 : matchT [RTok.digits, .lit ['s']] (S ++ (['s'] ++ [])) = some [S] :=
    matchT_digits_seg hSne hS (List.takeWhile_cons_of_neg (by decide)) u1
  have u3 : matchT [RTok.ws0, .digits, .lit ['s']]
      ([' '] ++ (S ++ (['s'] ++ []))) = some [S] :=
    matchT_ws0_seg (by decide) (takeWhile_ws_eq_nil_of_digits hSne hS _) u2
  have u4 : matchT [RTok.lit ['m'], .ws0, .digits, .lit ['s']]
      (['m'] ++ ([' '] ++ (S ++ (['s'] ++ [])))) = some [S] :=
    matchT_lit_cons u3
  have u5 : matchT [RTok.digits, .lit ['m'], .ws0, .digits, .lit ['s']]
      (M ++ (['m'] ++ ([' '] ++ (S ++ (['s'] ++ []))))) = some [M, S] :=
    matchT_digits_seg hMne hM (List.takeWhile_cons_of_neg (by decide)) u4
  exact u5

theorem matchT_hms_tail {H M S : List Char}
    (hHne : H ≠ []) (hH : ∀ c ∈ H, c.isDigit = true)
    (hMne : M ≠ []) (hM : ∀ c ∈ M, c.isDigit = true)
    (hSne : S ≠ []) (hS : ∀ c ∈ S, c.isDigit = true) :
    matchT [.digits, .lit ['h'], .ws0, .digits, .lit ['m'], .ws0, .digits, .lit ['s']]
      (H ++ 'h' :: ' ' :: (M ++ 'm' :: ' ' :: (S ++ ['s']))) = some [H, M, S] := by
  have u5 : matchT [RTok.digits, .lit ['m'], .ws0, .digits, .lit ['s']]
      (M ++ 'm' :: ' ' :: (S ++ ['s'])) = some [M, S] :=
    matchT_ms_tail hMne hM hSne hS
  have u6 : matchT [RTok.ws0, .digits, .lit ['m'], .ws0, .digits, .lit ['s']]
      ([' '] ++ (M ++ 'm' :: ' ' :: (S ++ ['s']))) = some [M, S] :=
    matchT_ws0_seg (by decide) (takeWhile_ws_eq_nil_of_digits hMne hM _) u5
  have u7 : matchT [RTok.lit ['h'], .ws0, .digits, .lit ['m'], .ws0, .digits, .lit ['s']]
      (['h'] ++ ([' '] ++ (M ++ 'm' :: ' ' :: (S ++ ['s'])))) = some [M, S] :=
    matchT_lit_cons u6
  have u8 : matchT [RTok.digits, .lit ['h'], .ws0, .digits, .lit ['m'], .ws0, .digits, .lit ['s']]
      (H ++ (['h'] ++ ([' '] ++ (M ++ 'm' :: ' ' :: (S ++ ['s']))))) = some [H, M, S] :=
    matchT_digits_seg hHne hH (List.takeWhile_cons_of_neg (by decide)) u7
  exact u8

theorem findSome?_patterns_cons_none {p : List RTok} {ps : List (List RTok)}
    {L : List Char} (h : reSearch p L = none) :
    ((p :: ps).findSome? fun q => (reSearch q L).bind secondsOfGroups) =
      (ps.findSome? fun q => (reSearch q L).bind secondsOfGroups) := by
  rw [List.findSome?_cons, h]
  rfl

theorem findSome?_patterns_cons_some {p : List RTok} {ps : List (List RTok)}
    {L : List Char} {gs : List (List Char)} {n : Nat} (h : reSearch p L = some gs)
    (h2 : secondsOfGroups gs = some n) :
    ((p :: ps).findSome? fun q => (reSearch q L).bind secondsOfGroups) = some n := by
  rw [List.findSome?_cons, h, Option.some_bind, h2]

theorem semi_not_mem_rest (s : Nat) :
    ';' ∉ " estimated printing time: ".toList ++ formatTimeCh s := by
  intro hm
  rcases List.mem_append.mp hm with h | h
  · exact absurd h (by decide)
  · rcases mem_formatTimeCh h with h | h | h | h | h <;> exact absurd h (by decide)

theorem scanLine_roundtrip (s : Nat) :
    scanLine ("; estimated printing time: ".toList ++ formatTimeCh s) =
      some (formatTimeCh s, s) := by
  have hp0 : reSearch pat0
      ("; estimated printing time: ".toList ++ formatTimeCh s) = none := by
    refine reSearch_eq_none_of_not_mem (c := '=') ⟨['='], by decide, by decide⟩ ?_
    intro hm
    rcases List.mem_append.mp hm with h | h
    · exact absurd h (by decide)
    · rcases mem_formatTimeCh h with h | h | h | h | h <;> exact absurd h (by decide)
  have hsw : startsWithSemi
      ("; estimated printing time: ".toList ++ formatTimeCh s) = true := rfl
  by_cases hpos : 0 < s / 3600
  · have hShape : formatTimeCh s =
        pyFmtNat (s / 3600) ++ 'h' :: ' ' :: (pyFmtNat (s % 3600 / 60) ++ 'm' :: ' ' ::
          (pyFmtNat (s % 60) ++ ['s'])) := by
      simp only [formatTimeCh]
      rw [if_pos hpos]
    have hmatch : matchT pat1
        ("; estimated printing time: ".toList ++ formatTimeCh s) =
        some [pyFmtNat (s / 3600), pyFmtNat (s % 3600 / 60), pyFmtNat (s % 60)] := by
      rw [hShape]
      exact matchT_est_label
        (takeWhile_ws_eq_nil_of_digits (pyFmtNat_ne_nil _) pyFmtNat_digits _)
        (matchT_hms_tail (pyFmtNat_ne_nil _) pyFmtNat_digits
          (pyFmtNat_ne_nil _) pyFmtNat_digits (pyFmtNat_ne_nil _) pyFmtNat_digits)
    have hp1 : reSearch pat1
        ("; estimated printing time: ".toList ++ formatTimeCh s) =
        some [pyFmtNat (s / 3600), pyFmtNat (s % 3600 / 60), pyFmtNat (s % 60)] :=
      reSearch_zero hmatch
    have hsec : secondsOfGroups
        [pyFmtNat (s / 3600), pyFmtNat (s % 3600 / 60), pyFmtNat (s % 60)] =
        some (digitsToNat (pyFmtNat (s / 3600)) * 3600 +
          digitsToNat (pyFmtNat (s % 3600 / 60)) * 60 +
          digitsToNat (pyFmtNat (s % 60))) := rfl
    have hval : digitsToNat (pyFmtNat (s / 3600)) * 3600 +
        digitsToNat (pyFmtNat (s % 3600 / 60)) * 60 +
        digitsToNat (pyFmtNat (s % 60)) = s := by
      rw [digitsToNat_pyFmtNat, digitsToNat_pyFmtNat, digitsToNat_pyFmtNat]
      omega
    unfold scanLine
    rw [if_pos hsw, strLower_line]
    unfold time_patterns
    rw [findSome?_patterns_cons_none hp0, findSome?_patterns_cons_some hp1 hsec,
      Option.map_some', hval]
  · have hShape : formatTimeCh s =
        pyFmtNat (s % 3600 / 60) ++ 'm' :: ' ' :: (pyFmtNat (s % 60) ++ ['s']) := by
      simp only [formatTimeCh]
      rw [if_neg hpos]
    have hp1 : reSearch pat1
        ("; estimated printing time: ".toList ++ formatTimeCh s) = none := by
      refine reSearch_eq_none_of_not_mem (c := 'h') ⟨['h'], by decide, by decide⟩ ?_
      intro hm
      rcases List.mem_append.mp hm with h | h
      · exact absurd h (by decide)
      · rw [hShape] at h
        simp only [List.mem_append, List.mem_cons, List.mem_singleton,
          List.not_mem_nil, or_false] at h
        rcases h with h | h | h | h | h <;>
          first
            | exact absurd (pyFmtNat_digits _ h) (by decide)
            | exact absurd h (by decide)
    have hp2 : reSearch pat2
        ("; estimated printing time: ".toList ++ formatTimeCh s) = none := by
      show reSearch pat2
        (';' :: (" estimated printing time: ".toList ++ formatTimeCh s)) = none
      unfold pat2
      rw [reSearch_semi (semi_not_mem_rest s)]
      rfl
    have hp3 : reSearch pat3
        ("; estimated printing time: ".toList ++ formatTimeCh s) = none := by
      show reSearch pat3
        (';' :: (" estimated printing time: ".toList ++ formatTimeCh s)) = none
      unfold pat3
      rw [reSearch_semi (semi_not_mem_rest s)]
      rfl
    have hmatch : matchT pat4
        ("; estimated printing time: ".toList ++ formatTimeCh s) =
        some [pyFmtNat (s % 3600 / 60), pyFmtNat (s % 60)] := by
      rw [hShape]
      exact matchT_est_label
        (takeWhile_ws_eq_nil_of_digits (pyFmtNat_ne_nil _) pyFmtNat_digits _)
        (matchT_ms_tail (pyFmtNat_ne_nil _) pyFmtNat_digits
          (pyFmtNat_ne_nil _) pyFmtNat_digits)
    have hp4 : reSearch pat4
        ("; estimated printing time: ".toList ++ formatTimeCh s) =
        some [pyFmtNat (s % 3600 / 60), pyFmtNat (s % 60)] :=
      reSearch_zero hmatch
    have hsec : secondsOfGroups [pyFmtNat (s % 3600 / 60), pyFmtNat (s % 60)] =
        some (digitsToNat (pyFmtNat (s % 3600 / 60)) * 60 +
          digitsToNat (pyFmtNat (s % 60))) := rfl
    have hval : digitsToNat (pyFmtNat (s % 3600 / 60)) * 60 +
        digitsToNat (pyFmtNat (s % 60)) = s := by
      rw [digitsToNat_pyFmtNat, digitsToNat_pyFmtNat]
      omega
    unfold scanLine
    rw [if_pos hsw, strLower_line]
    unfold time_patterns
    rw [findSome?_patterns_cons_none hp0, findSome?_patterns_cons_none hp1,
      findSome?_patterns_cons_none hp2, findSome?_patterns_cons_none hp3,
      findSome?_patterns_cons_some hp4 hsec, Option.map_some', hval]

theorem extractLines_single {l : List Char} :
    extractLines [l] = scanLine (pyStrip l) := by
  unfold extractLines
  show scanLines [pyStrip l] = scanLine (pyStrip l)
  unfold scanLines
  rcases h : scanLine (pyStrip l) with _ | r <;> rw [List.findSome?_cons, h] <;> rfl

/-- C9: the extractor matches only comment lines: if no (stripped) line of the
input begins with the `;` comment marker, the result is NotFound (`none`);
in particular a recognizable time expression on a non-comment line is never
extracted. -/
theorem C9_only_comment_lines (text : String)
    (h : ∀ l ∈ splitLinesCh text.toList, startsWithSemi (pyStrip l) = false) :
    extract_superslicer_time_from_gcode text = none := by
  unfold extract_superslicer_time_from_gcode
  have hE : extractLines (splitLinesCh text.toList) = none := by
    unfold extractLines
    rw [readLoop_eq]
    refine scanLines_eq_none (fun l' hl' => ?_)
    rw [List.mem_map] at hl'
    obtain ⟨l, hlmem, rfl⟩ := hl'
    exact scanLine_of_not_semi (h l (List.mem_of_mem_take hlmem))
  rw [hE]
  rfl

/-- Witness for C9 at the concrete non-comment input `"3h 54m 52s"`. -/
theorem C9_only_comment_lines_witness :
    (∀ l ∈ splitLinesCh "3h 54m 52s".toList, startsWithSemi (pyStrip l) = false) ∧
      extract_superslicer_time_from_gcode "3h 54m 52s" = none :=
  ⟨by decide, C9_only_comment_lines "3h 54m 52s" (by decide)⟩

/-- C5 counterexample: the extractor returns 14092 with display string
`"3h 54m 52s"` for a SuperSlicer comment line, but feeding that display
string alone back through the extractor yields NotFound, not 14092: the
round-trip law fails as stated. -/
theorem C5_counterexample :
    extract_superslicer_time_from_gcode
        "; estimated printing time (normal mode) = 3h 54m 52s" =
      some ("3h 54m 52s", 14092) ∧
    extract_superslicer_time_from_gcode "3h 54m 52s" = none := by
  constructor
  · decide
  · decide

/-- C5 amended: the round-trip law holds once the display string is embedded
in a labeled comment line: for every seconds value `s`, scanning the line
`"; estimated printing time: "` followed by the extractor's display string
for `s` reproduces exactly `s` (and the same display string). -/
theorem C5_amended_roundtrip_labeled (s : Nat) :
    extract_superslicer_time_from_gcode
        ⟨"; estimated printing time: ".toList ++ formatTimeCh s⟩ =
      some (⟨formatTimeCh s⟩, s) := by
  have hnl : '\n' ∉ "; estimated printing time: ".toList ++ formatTimeCh s := by
    intro hm
    rcases List.mem_append.mp hm with h | h
    · exact absurd h (by decide)
    · rcases mem_formatTimeCh h with h | h | h | h | h <;> exact absurd h (by decide)
  have hne : "; estimated printing time: ".toList ++ formatTimeCh s ≠ [] := by
    show ';' :: (" estimated printing time: ".toList ++ formatTimeCh s) ≠ []
    exact List.cons_ne_nil _ _
  have hY : ∃ Y, formatTimeCh s = Y ++ ['s'] := by
    simp only [formatTimeCh]
    split
    · refine ⟨pyFmtNat (s / 3600) ++ 'h' :: ' ' :: (pyFmtNat (s % 3600 / 60) ++ 'm' :: ' ' ::
        pyFmtNat (s % 60)), ?_⟩
      simp
    · refine ⟨pyFmtNat (s % 3600 / 60) ++ 'm' :: ' ' :: pyFmtNat (s % 60), ?_⟩
      simp
  obtain ⟨Y, hYe⟩ := hY
  have hstrip : pyStrip ("; estimated printing time: ".toList ++ formatTimeCh s) =
      "; estimated printing time: ".toList ++ formatTimeCh s := by
    refine pyStrip_eq_self ?_ ?_
    · show Char.isWhitespace ';' = false
      decide
    · have hsplit : "; estimated printing time: ".toList ++ formatTimeCh s =
          ("; estimated printing time: ".toList ++ Y) ++ ['s'] := by
        rw [hYe, List.append_assoc]
      rw [hsplit, List.reverse_append]
      show Char.isWhitespace 's' = false
      decide
  unfold extract_superslicer_time_from_gcode
  rw [show (String.mk ("; estimated printing time: ".toList ++ formatTimeCh s)).toList =
      "; estimated printing time: ".toList ++ formatTimeCh s from rfl]
  rw [splitLinesCh_single hne hnl, extractLines_single, hstrip, scanLine_roundtrip]
  rfl

/-- C2 counterexample: for the colon-delimited pair line `"15:30"` (first
number 15 > 12) the claim predicts 15*3600+30*60 = 55800 seconds, but the
extractor has no colon-pair rule at all and the line is not a comment line,
so the result is NotFound. -/
theorem C2_counterexample :
    extract_superslicer_time_from_gcode "15:30" = none := by decide

/-- C2 amended: a line consisting of a colon-delimited pair of integers is
never matched: the pattern list contains no bare pair rule and such a line
does not start with the `;` comment marker, so for every pair of naturals
the extractor returns NotFound (there is no threshold-12 tie-break in the
code). -/
theorem C2_amended_colon_pairs_not_found (a b : Nat) :
    extract_superslicer_time_from_gcode ⟨pyFmtNat a ++ ':' :: pyFmtNat b⟩ = none := by
  obtain ⟨c, t, hct⟩ : ∃ c t, pyFmtNat a = c :: t := by
    rcases hpa : pyFmtNat a with _ | ⟨c, t⟩
    · exact absurd hpa (pyFmtNat_ne_nil a)
    · exact ⟨c, t, rfl⟩
  have hcd : c.isDigit = true :=
    pyFmtNat_digits c (by rw [hct]; exact List.mem_cons_self _ _)
  have hnl : '\n' ∉ pyFmtNat a ++ ':' :: pyFmtNat b := by
    intro hm
    rcases List.mem_append.mp hm with h | h
    · exact absurd (pyFmtNat_digits _ h) (by decide)
    · rcases List.mem_cons.mp h with h | h
      · exact absurd h (by decide)
      · exact absurd (pyFmtNat_digits _ h) (by decide)
  have hne : pyFmtNat a ++ ':' :: pyFmtNat b ≠ [] := by
    rw [hct]
    exact List.cons_ne_nil _ _
  unfold extract_superslicer_time_from_gcode
  rw [show (String.mk (pyFmtNat a ++ ':' :: pyFmtNat b)).toList =
      pyFmtNat a ++ ':' :: pyFmtNat b from rfl]
  rw [splitLinesCh_single hne hnl, extractLines_single]
  have hsl : scanLine (pyStrip (pyFmtNat a ++ ':' :: pyFmtNat b)) = none := by
    rw [hct]
    exact scanLine_of_not_semi (startsWithSemi_pyStrip_digit hcd)
  rw [hsl]
  rfl

set_option maxRecDepth 8000

/-- C1: the single SuperSlicer comment line `"; estimated printing time
(normal mode) = 3h 54m 52s"` yields 14092 seconds with display string
`"3h 54m 52s"`, and converting 14092 seconds at hourly rate 3.0 yields the
cost 11.74. -/
theorem C1_scenario_time_and_cost :
    extract_superslicer_time_from_gcode
        "; estimated printing time (normal mode) = 3h 54m 52s" =
      some ("3h 54m 52s", 14092) ∧
    duration_to_cost 14092 3 = 11.74 := by
  constructor
  · decide
  · norm_num [duration_to_cost, pyRound2, roundHalfEven]

/-- C3 counterexample: a `; TIME: 42` line placed as the 302nd line of the
file (well within the claimed first 400 lines) is never extracted, because
the read loop stops after 301 lines. -/
theorem C3_counterexample :
    extractLines (List.replicate 301 ['x'] ++ ["; TIME: 42".toList]) = none := by
  decide

/-- C3 amended: the extractor examines exactly the first 301 lines
(the loop breaks once the zero-based line index exceeds 300), not
400-500: the header read equals `take 301` composed with stripping, lines
beyond index 300 never influence the result, and a time expression within
the first 301 lines is extracted. -/
theorem C3_amended_header_301 :
    (∀ ls : List (List Char), readLoop 0 ls = (ls.take 301).map pyStrip) ∧
    (∀ ls : List (List Char), extractLines ls = extractLines (ls.take 301)) ∧
    extractLines (List.replicate 300 ['x'] ++ ["; TIME: 42".toList]) =
      some ("0m 42s".toList, 42) := by
  refine ⟨fun ls => readLoop_eq ls 0, fun ls => ?_, by decide⟩
  unfold extractLines
  rw [readLoop_eq ls 0, readLoop_eq (ls.take 301) 0, List.take_take]
  norm_num

/-- C4 counterexample: at wall thickness 0.1 mm (inside the accepted range)
the code's wall factor is 0.775, strictly below 1 and different from the
claimed clamped formula `1 + max(0, ...)`: the source has no clamp, so a
thin wall does reduce the estimate. -/
theorem C4_counterexample :
    wall_factor (1 / 10) ≠ 1 + max 0 ((1 / 10 - 0.4) / 0.4 * 0.3) ∧
    wall_factor (1 / 10) < 1 := by
  constructor
  · norm_num [wall_factor]
  · norm_num [wall_factor]

/-- C4 amended: over the accepted range the wall factor is the unclamped
`1 + (w - 0.4) / 0.4 * 0.3`; it is strictly below 1 exactly when the wall
is thinner than 0.4 mm (so thin walls reduce the estimated duration), and
at least 1 for walls of 0.4 mm or more. -/
theorem C4_amended_wall_factor (w : ℚ) (h1 : 1 / 10 ≤ w) (h2 : w ≤ 10) :
    wall_factor w = 1 + (w - 0.4) / 0.4 * 0.3 ∧
    (w < 0.4 → wall_factor w < 1) ∧
    (0.4 ≤ w → 1 ≤ wall_factor w) := by
  have key : wall_factor w = 1 + (w - 0.4) * (3 / 4) := by
    unfold wall_factor
    ring
  refine ⟨rfl, fun hw => ?_, fun hw => ?_⟩
  · rw [key]
    linarith
  · rw [key]
    linarith

/-- Witness for C4 amended at wall thickness 0.1 mm. -/
theorem C4_amended_wall_factor_witness :
    wall_factor (1 / 10) = 1 + ((1 / 10 : ℚ) - 0.4) / 0.4 * 0.3 ∧
    ((1 / 10 : ℚ) < 0.4 → wall_factor (1 / 10) < 1) ∧
    ((0.4 : ℚ) ≤ 1 / 10 → 1 ≤ wall_factor (1 / 10)) :=
  C4_amended_wall_factor (1 / 10) (by norm_num) (by norm_num)

/-- C6: the extractor is total and forgiving: the empty text and a text with
no time expression both yield the explicit NotFound value (`none`), and a
line on which every pattern fails is simply skipped, scanning continuing
with the subsequent lines. -/
theorem C6_notfound_and_skip :
    extract_superslicer_time_from_gcode "" = none ∧
    extract_superslicer_time_from_gcode "no time here" = none ∧
    ∀ (l : List Char) (rest : List (List Char)),
      scanLine l = none → scanLines (l :: rest) = scanLines rest := by
  refine ⟨by decide, by decide, fun l rest h => scanLines_cons_none h⟩

/-- Witness for C6: a malformed comment line is skipped and the scan of the
following line still succeeds. -/
theorem C6_notfound_and_skip_witness :
    scanLine "; estimated time: soon".toList = none ∧
    scanLines ["; estimated time: soon".toList, "; TIME: 42".toList] =
      scanLines ["; TIME: 42".toList] :=
  ⟨by decide, C6_notfound_and_skip.2.2 _ _ (by decide)⟩

/-- C7: the cost conversion is `round((seconds / 3600) * rate, 2)` for every
duration and non-negative rate, and in particular 3600 s at rate 3.0 costs
3.00 and 5400 s at rate 3.0 costs 4.50. -/
theorem C7_duration_to_cost_spec :
    (∀ (d : Nat) (r : ℚ), 0 ≤ r →
      duration_to_cost d r = pyRound2 ((d : ℚ) / 3600 * r)) ∧
    duration_to_cost 3600 3 = 3 ∧
    duration_to_cost 5400 3 = 4.50 := by
  refine ⟨fun d r _ => rfl, ?_, ?_⟩
  · norm_num [duration_to_cost, pyRound2, roundHalfEven]
  · norm_num [duration_to_cost, pyRound2, roundHalfEven]

/-- Witness for C7 at duration 3600 s and rate 3. -/
theorem C7_duration_to_cost_spec_witness :
    duration_to_cost 3600 3 = pyRound2 ((3600 : ℚ) / 3600 * 3) :=
  C7_duration_to_cost_spec.1 3600 3 (by norm_num)

/-- C8 counterexample: the bare line `"01:23:45"` is not a comment line and
matches no pattern, so the extractor returns NotFound rather than the
claimed 5025 seconds. -/
theorem C8_counterexample :
    extract_superslicer_time_from_gcode "01:23:45" = none := by decide

/-- C8 amended: the colon-triple rule exists only behind the
`; printing time` label (pattern 7), and there is no looser colon-pair rule
at all: on the labeled comment line the triple parses as H:MM:SS giving
5025 seconds, never a reinterpretation of the pair prefix. -/
theorem C8_amended_hms_triple :
    extract_superslicer_time_from_gcode "; printing time: 01:23:45" =
      some ("1h 23m 45s", 5025) := by
  decide

/-- C10: when the uploaded file's size cannot be read, the heuristic
estimator substitutes a size factor of 1.0 and still produces the same
duration string and cost as it would for a readable 100 KB file (whose
clamped size factor is also 1.0), for every accepted infill and wall
thickness. -/
theorem C10_unreadable_size_fallback (infill wall : ℚ) (h1 : 0 ≤ infill)
    (h2 : infill ≤ 99) (h3 : 1 / 10 ≤ wall) (h4 : wall ≤ 10) :
    size_factor none = 1 ∧
    calculate_demo_estimate none infill wall =
      calculate_demo_estimate (some 100) infill wall := by
  have hs1 : size_factor none = 1 := rfl
  have hs2 : size_factor (some 100) = 1 := by
    simp only [size_factor]
    norm_num
  refine ⟨hs1, ?_⟩
  unfold calculate_demo_estimate total_hours base_hours
  rw [hs1, hs2]

/-- Witness for C10 at the default parameters (infill 20 %, wall 0.8 mm). -/
theorem C10_unreadable_size_fallback_witness :
    size_factor none = 1 ∧
    calculate_demo_estimate none 20 (4 / 5) =
      calculate_demo_estimate (some 100) 20 (4 / 5) :=
  C10_unreadable_size_fallback 20 (4 / 5) (by norm_num) (by norm_num)
    (by norm_num) (by norm_num)
